import Mathlib

/-!
Verification development for the ifscube line-fitting engine
(`ifscube/onedspec.py` and `ifscube/datacube.py`).

Python floating-point values are modelled as exact rationals (every IEEE
double is a rational number); the only places where irrational values
arise inside the studied code paths are `np.sqrt` in the objective
function, which is modelled with `Real.sqrt`, and the polar angles of
`Cube._spiral`, which are modelled with `Real.arctan`.  External
collaborators that live outside the two source files under study
(`spectools.continuum`, the `elprofile` line profiles, and
`scipy.optimize.minimize`) are taken as opaque function parameters, so
every theorem quantifies over their possible behaviours.
-/

namespace IfsCube

/-- Python exceptions that the studied code paths can raise. -/
inductive PyErr
  | typeError
  | keyError
  | nameError
  | valueError
  deriving DecidableEq, Repr

/-- The continuum-options dictionary `copts` passed to
`spectools.continuum`.  The source builds the default
`{'niterate': 5, 'degr': 4, 'upper_threshold': 2, 'lower_threshold': 2}`
when the caller passes `None`, and then always executes
`copts.update(dict(returns='function'))`, which mutates the dictionary
in place.  The `returns_function` field records whether the dictionary
currently holds the entry `returns='function'`. -/
structure Copts where
  niterate : ℚ
  degr : ℚ
  upper_threshold : ℚ
  lower_threshold : ℚ
  returns_function : Bool
  deriving DecidableEq, Repr

/-- The default continuum options built by `Spectrum.linefit` when
`copts is None` (onedspec.py lines 188-191), before the `returns`
entry is added. -/
def defaultCopts : Copts :=
  { niterate := 5, degr := 4, upper_threshold := 2, lower_threshold := 2,
    returns_function := false }

/-- The attributes of a `Spectrum` object that `Spectrum.linefit` reads:
observed wavelength `wl`, rest-frame wavelength `restwl`, flux `data`,
`variance`, boolean `flags` (True = bad pixel), and the optional
pre-computed continuum attribute `cont` (absence triggers the
`AttributeError` branch that calls `spectools.continuum`). -/
structure SpecState where
  restwl : List ℚ
  wl : List ℚ
  data : List ℚ
  variance : List ℚ
  flags : List Bool
  cont : Option (List ℚ)

/-- The `function` argument of `Spectrum.linefit`: `'gaussian'`,
`'gauss_hermite'`, or any unrecognised string (which raises
`NameError`). -/
inductive FitFunction
  | gaussian
  | gauss_hermite
  | unknown
  deriving DecidableEq, Repr

/-- Number of parameters per component selected at onedspec.py lines
169-178 (3 for a gaussian, 5 for a gauss-hermite profile). -/
def nparsPerComponent : FitFunction → ℕ
  | FitFunction.gaussian => 3
  | FitFunction.gauss_hermite => 5
  | FitFunction.unknown => 0

/-- The data determining the call
`minimize(res, x0=p0, method=..., bounds=sbounds, constraints=...)`
at onedspec.py line 259: the working arrays captured by the closure
`res` (`fitwl`, normalized signal `s`, normalized variance `v`,
weights `w`), the initial guess `x0`, the scaled bounds and the
constraint count. -/
structure MinimizerInput where
  fitwl : List ℚ
  s : List ℚ
  v : List ℚ
  w : List ℚ
  x0 : List ℚ
  sbounds : List (Option ℚ × Option ℚ)
  nconstraints : ℕ
  deriving DecidableEq, Repr

/-- What `scipy.optimize.minimize` returns, as far as `Spectrum.linefit`
reads it: the solution vector `r['x']` and the integer termination
status `r.status` (0 = converged). -/
structure MinimizerResult where
  x : List ℚ
  status : ℤ
  deriving DecidableEq, Repr

/-- External collaborators of `Spectrum.linefit` that are not part of
the two source files under study: `spectools.continuum` (called with
`returns='function'` and indexed `[1]`, yielding the continuum values
on the valid wavelengths), the line profiles `elprofile.gauss` and
`elprofile.gausshermite`, and `scipy.optimize.minimize`.  Theorems
quantify over an arbitrary `Collaborators` value. -/
structure Collaborators where
  continuum : List ℚ → List ℚ → Copts → List ℚ
  gauss : List ℚ → List ℚ → List ℚ
  gauss_hermite : List ℚ → List ℚ → List ℚ
  minimize : MinimizerInput → MinimizerResult

/-- Boolean-mask selection `a[mask]` of numpy (which copies). -/
def maskSelect (l : List ℚ) (m : List Bool) : List ℚ :=
  ((l.zip m).filter (fun p => p.2)).map Prod.fst

/-- Elementwise subtraction of numpy arrays. -/
def vsub (a b : List ℚ) : List ℚ := List.zipWith (fun x y => x - y) a b

/-- Elementwise addition of numpy arrays. -/
def vadd (a b : List ℚ) : List ℚ := List.zipWith (fun x y => x + y) a b

/-- Arithmetic mean `np.mean` of a (nonempty) array. -/
def lmean (l : List ℚ) : ℚ := l.sum / (l.length : ℚ)

/-- The fitting-window mask (onedspec.py lines 182-186): all-True when
no window is given, otherwise `(self.wl > fw0) & (self.wl < fw1)`. -/
def fwMask (st : SpecState) : Option (ℚ × ℚ) → List Bool
  | none => st.data.map (fun _ => true)
  | some win => st.wl.map (fun x => decide (win.1 < x) && decide (x < win.2))

/-- The valid-pixel mask `(self.flags == 0) & fw` (onedspec.py line 203). -/
def valid_mask (st : SpecState) (fw : List Bool) : List Bool :=
  List.zipWith (fun f m => (!f) && m) st.flags fw

/-- In-place slice update `l[::k] /= sf` of a numpy array: every
`k`-th entry starting at index 0 is divided by `sf`. -/
def divEvery (k : ℕ) (sf : ℚ) (l : List ℚ) : List ℚ :=
  l.enum.map (fun p => if p.1 % k = 0 then p.2 / sf else p.2)

/-- In-place slice update `p[::k] *= sf` on the real-valued solution
vector: every `k`-th entry starting at index 0 is multiplied by `sf`. -/
noncomputable def mulEveryR (k : ℕ) (sf : ℝ) (l : List ℝ) : List ℝ :=
  l.enum.map (fun p => if p.1 % k = 0 then p.2 * sf else p.2)

/-- Embedding of `onedspec.scale_bounds` (lines 15-23): deep-copy the
bounds, then divide both endpoints of every `npars_pc`-th pair by
`scale_factor`, leaving `None` endpoints as `None`.  (The `None` case
of the whole `bounds` object is handled at the call site in `linefit`:
iterating over `None[::npars_pc]` raises `TypeError`.) -/
def scale_bounds (bounds : List (Option ℚ × Option ℚ)) (scale_factor : ℚ)
    (npars_pc : ℕ) : List (Option ℚ × Option ℚ) :=
  bounds.enum.map (fun p =>
    if p.1 % npars_pc = 0 then
      (p.2.1.map (fun x => x / scale_factor), p.2.2.map (fun x => x / scale_factor))
    else p.2)

/-- The rational data produced on the path that reaches the minimizer
(onedspec.py lines 259-277): the minimizer's solution `r['x']` and
termination status, the weighted sum of squares whose square root is
`chi2 = res(r['x'])`, the degrees of freedom `nu`, the scale factor and
the per-component parameter count.  The real-valued solution vector is
assembled from these by `solutionVector`. -/
structure FitSuccess where
  x : List ℚ
  status : ℤ
  sumsq : ℚ
  nu : ℚ
  scale_factor : ℚ
  npars_pc : ℕ
  deriving DecidableEq, Repr

/-- Lines 265-271 of onedspec.py: `chi2 = res(r['x'])` (the square root
of the weighted sum of squares), `red_chi2 = chi2 / nu`,
`p = np.append(r['x'], red_chi2)`, then `p[::npars_pc] *= scale_factor`
— a slice that contains the trailing index `npars` whenever `npars` is
a multiple of `npars_pc`. -/
noncomputable def solutionVector (f : FitSuccess) : List ℝ :=
  mulEveryR f.npars_pc ((f.scale_factor : ℚ) : ℝ)
    ((f.x.map (fun q => ((q : ℚ) : ℝ))) ++
      [Real.sqrt ((f.sumsq : ℚ) : ℝ) / ((f.nu : ℚ) : ℝ)])

/-- The observable outcome of one `Spectrum.linefit` call: a raised
exception (if any), the object attributes the call may have set
(`fit_status`, `fitwl`, `fitcont`, `fitspec`, `resultspec`; `none` =
attribute left unset), the final contents of the caller-supplied
mutable arguments `p0`, `bounds` and `copts`, a trace of the input
handed to `scipy.optimize.minimize` (`none` = the minimizer was never
invoked), and the data of the solved fit (`none` on every early-exit
path).  On the success path both the returned value and the
`em_model` attribute equal `solutionVector` of the `fit` field; on
every other path the call returns no value and leaves `em_model`
unset. -/
structure LinefitOutcome where
  err : Option PyErr
  fit_status : Option ℤ
  fitwl : Option (List ℚ)
  fitcont : Option (List ℚ)
  fitspec : Option (List ℚ)
  resultspec : Option (List ℚ)
  p0_after : List ℚ
  bounds_after : Option (List (Option ℚ × Option ℚ))
  copts_after : Option Copts
  minimizer_input : Option MinimizerInput
  fit : Option FitSuccess
  deriving DecidableEq, Repr

/-- The value returned by the call (`none` models Python's bare
`return` on the early-exit paths, and a call terminated by an
exception). -/
noncomputable def LinefitOutcome.ret (o : LinefitOutcome) : Option (List ℝ) :=
  o.fit.map solutionVector

/-- The `em_model` attribute after the call (`none` = never set). -/
noncomputable def LinefitOutcome.em_model (o : LinefitOutcome) : Option (List ℝ) :=
  o.fit.map solutionVector

/-- Outcome skeleton: nothing raised, no attribute set, caller-visible
arguments as given. -/
def baseOutcome (p0A : List ℚ) (bndsA : Option (List (Option ℚ × Option ℚ)))
    (coptsA : Option Copts) : LinefitOutcome :=
  { err := none, fit_status := none,
    fitwl := none, fitcont := none, fitspec := none, resultspec := none,
    p0_after := p0A, bounds_after := bndsA, copts_after := coptsA,
    minimizer_input := none, fit := none }

/-- Embedding of `Spectrum.linefit` (onedspec.py lines 67-319, ignoring
the `writefits` output branch).  Control flow follows the source:

* unknown `function` raises `NameError` (line 180);
* `copts.update(dict(returns='function'))` mutates the caller's dict
  (line 193) before anything else;
* if `np.sum(self.flags) > 0.8 * self.flags.size`, set
  `self.fit_status = 98` and `return` with no value (lines 198-201) —
  the all-NaN vector built at line 167 is assigned to the dead local
  `p` and discarded;
* continuum: `self.cont` if present, else `spectools.continuum` (lines
  220-224);
* `scale_factor = np.mean(s)`; if `scale_factor <= 0`, assign 97 to
  the *local* variable `fit_status` (line 240 lacks `self.`) and
  `return` with no value — neither `self.fit_status` nor
  `self.em_model` is written;
* normalize `s`; divide `v` by `scale_factor**2` only when `v` is not
  identically 1 (line 243); `p0[::npars_pc] /= scale_factor` mutates
  the caller's array (line 245);
* `scale_bounds(bounds, ...)` with `bounds=None` raises `TypeError`
  (`None[::npars_pc]` is not subscriptable);
* run the minimizer; `chi2 = res(r['x'])` is the *square root* of the
  weighted sum of squares; `nu = len(s)/inst_disp - npars -
  len(constraints) - 1`; `p = np.append(r['x'], chi2/nu)`;
  `p[::npars_pc] *= scale_factor` rescales every `npars_pc`-th entry —
  including the trailing index `npars`, which is a multiple of
  `npars_pc` — then the attributes and the returned `sol` are set
  (lines 251-277, 319). -/
def linefit (ext : Collaborators) (st : SpecState) (p0 : List ℚ)
    (function : FitFunction) (fitting_window : Option (ℚ × ℚ))
    (constraints : ℕ) (bounds : Option (List (Option ℚ × Option ℚ)))
    (inst_disp : ℚ) (copts : Option Copts) (weights : Option (List ℚ)) :
    LinefitOutcome :=
  let npars := p0.length
  match function with
  | FitFunction.unknown =>
      { baseOutcome p0 bounds copts with err := some PyErr.nameError }
  | fn =>
    let npars_pc := nparsPerComponent fn
    let coptsLocal : Copts :=
      { (match copts with | none => defaultCopts | some c => c) with
        returns_function := true }
    let coptsAfter : Option Copts :=
      copts.map (fun c => { c with returns_function := true })
    if ((st.flags.count true : ℚ)) > 8 / 10 * (st.flags.length : ℚ) then
      { baseOutcome p0 bounds coptsAfter with fit_status := some 98 }
    else
      let fw := fwMask st fitting_window
      let valid := valid_mask st fw
      let wl := maskSelect st.restwl valid
      let data := maskSelect st.data valid
      let w := match weights with
               | none => data.map (fun _ => (1 : ℚ))
               | some ws => ws
      let cont := match st.cont with
                  | some c => c
                  | none => ext.continuum wl data coptsLocal
      let s0 := vsub data cont
      let v0 := maskSelect st.variance valid
      let scale_factor := lmean s0
      if scale_factor ≤ 0 then
        { baseOutcome p0 bounds coptsAfter with
          fitwl := some wl, fitcont := some cont,
          fitspec := some (data.map (fun _ => 0)),
          resultspec := some (data.map (fun _ => 0)) }
      else
        let s := s0.map (fun x => x / scale_factor)
        let v := if v0.all (fun x => decide (x = 1)) then v0
                 else v0.map (fun x => x / scale_factor ^ 2)
        let p0s := divEvery npars_pc scale_factor p0
        match bounds with
        | none =>
            { baseOutcome p0s none coptsAfter with
              err := some PyErr.typeError,
              fitwl := some wl, fitcont := some cont,
              fitspec := some (data.map (fun _ => 0)),
              resultspec := some (data.map (fun _ => 0)) }
        | some bs =>
            let sbounds := scale_bounds bs scale_factor npars_pc
            let minput : MinimizerInput :=
              { fitwl := wl, s := s, v := v, w := w, x0 := p0s,
                sbounds := sbounds, nconstraints := constraints }
            let r := ext.minimize minput
            let m := (match fn with
                      | FitFunction.gauss_hermite => ext.gauss_hermite
                      | _ => ext.gauss) wl r.x
            let sumsq : ℚ :=
              (List.zipWith (fun a b => a / b)
                (List.zipWith (fun wi di => wi * di ^ 2) w (vsub s m)) v).sum
            let nu : ℚ :=
              (s.length : ℚ) / inst_disp - (npars : ℚ) - (constraints : ℚ) - 1
            { err := none, fit_status := some r.status,
              fitwl := some wl, fitcont := some cont,
              fitspec := some (vadd (s.map (fun x => x * scale_factor)) cont),
              resultspec := some (vadd cont (m.map (fun x => x * scale_factor))),
              p0_after := p0s, bounds_after := some bs,
              copts_after := coptsAfter, minimizer_input := some minput,
              fit := some { x := r.x, status := r.status, sumsq := sumsq,
                            nu := nu, scale_factor := scale_factor,
                            npars_pc := npars_pc } }

/-- A two-pixel spectrum with every pixel flagged: `np.sum(self.flags)`
is 2, which exceeds `0.8 * self.flags.size = 1.6`. -/
def stAllFlagged : SpecState :=
  { restwl := [1, 2], wl := [1, 2], data := [3, 4], variance := [1, 1],
    flags := [true, true], cont := none }

/-- C2: when more than 80% of the pixels are flagged, `Spectrum.linefit`
aborts before any continuum estimation or optimization (the outcome is
the same for every choice of the external collaborators, and the
minimizer is never invoked) and records `self.fit_status = 98`; but,
contrary to the claim, it returns no value and never stores an all-NaN
solution vector: the bare `return` at onedspec.py line 201 discards the
`nan_solution` that line 199 assigned to the dead local `p`, so the
call returns `None` and `self.em_model` is left unset. -/
theorem c2_over_flagged_sets_status98_returns_none :
    ∀ ext : Collaborators,
      linefit ext stAllFlagged [4, 5000, 9/5] FitFunction.gaussian none 0 none
          1 none none =
        { baseOutcome [4, 5000, 9/5] none none with fit_status := some 98 } ∧
      (linefit ext stAllFlagged [4, 5000, 9/5] FitFunction.gaussian none 0 none
          1 none none).ret = none ∧
      (linefit ext stAllFlagged [4, 5000, 9/5] FitFunction.gaussian none 0 none
          1 none none).em_model = none ∧
      (linefit ext stAllFlagged [4, 5000, 9/5] FitFunction.gaussian none 0 none
          1 none none).minimizer_input = none :=
  fun _ => ⟨by with_unfolding_all rfl, by with_unfolding_all rfl,
    by with_unfolding_all rfl, by with_unfolding_all rfl⟩

/-- A three-pixel spectrum whose `cont` attribute equals its data, so
the continuum-subtracted signal is identically zero and
`scale_factor = np.mean(s) = 0 <= 0`. -/
def stZeroScale : SpecState :=
  { restwl := [4, 5, 6], wl := [4, 5, 6], data := [1, 2, 3],
    variance := [1, 1, 1], flags := [false, false, false],
    cont := some [1, 2, 3] }

/-- C3: when the mean continuum-subtracted flux is non-positive,
`Spectrum.linefit` does abort without invoking the optimizer (the
outcome is the same for every choice of the external collaborators and
`minimizer_input` stays `none`); but, contrary to the claim, status 97
is never recorded on the spectrum: line 240 of onedspec.py assigns 97
to the *local* variable `fit_status` (it lacks the `self.` that the
98-path at line 200 has), the bare `return` at line 241 discards the
`nan_solution` assigned to the dead local `p`, and the call returns
`None` with `self.fit_status` and `self.em_model` both left unset. -/
theorem c3_zero_scale_factor_records_nothing :
    ∀ ext : Collaborators,
      linefit ext stZeroScale [4, 5000, 9/5] FitFunction.gaussian none 0 none
          1 none none =
        { baseOutcome [4, 5000, 9/5] none none with
          fitwl := some [4, 5, 6], fitcont := some [1, 2, 3],
          fitspec := some [0, 0, 0], resultspec := some [0, 0, 0] } ∧
      (linefit ext stZeroScale [4, 5000, 9/5] FitFunction.gaussian none 0 none
          1 none none).fit_status = none ∧
      (linefit ext stZeroScale [4, 5000, 9/5] FitFunction.gaussian none 0 none
          1 none none).ret = none ∧
      (linefit ext stZeroScale [4, 5000, 9/5] FitFunction.gaussian none 0 none
          1 none none).em_model = none :=
  fun _ => ⟨by with_unfolding_all rfl, by with_unfolding_all rfl,
    by with_unfolding_all rfl, by with_unfolding_all rfl⟩

/-- The claim's definition of the trailing solution element: the
reduced chi-square, rms(x*) squared divided by the degrees of freedom,
where rms is the square root of the weighted sum of squares. -/
noncomputable def claimed_red_chi2 (sumsq nu : ℚ) : ℝ :=
  Real.sqrt ((sumsq : ℚ) : ℝ) ^ 2 / ((nu : ℚ) : ℝ)

/-- A five-pixel spectrum for exercising the full optimization path:
flat flux 3 over a supplied zero continuum, unit variance, nothing
flagged; `scale_factor = 3`, and with three parameters and no
constraints `nu = 5/1 - 3 - 0 - 1 = 1`. -/
def stC4 : SpecState :=
  { restwl := [1, 2, 3, 4, 5], wl := [1, 2, 3, 4, 5],
    data := [3, 3, 3, 3, 3], variance := [1, 1, 1, 1, 1],
    flags := [false, false, false, false, false],
    cont := some [0, 0, 0, 0, 0] }

/-- Concrete collaborators for the C4 run: a profile whose model values
on the five valid pixels are `[1, 0, 0, 0, 0]` (so the weighted sum of
squares against the normalized signal `[1,1,1,1,1]` is 4, whose square
root is exactly 2), and a minimizer that converges (status 0) at the
normalized initial guess. -/
def extC4 : Collaborators :=
  { continuum := fun _ _ _ => [],
    gauss := fun wl _ => (List.range wl.length).map (fun i => if i = 0 then (1 : ℚ) else 0),
    gauss_hermite := fun _ _ => [],
    minimize := fun _ => { x := [1, 5, 2], status := 0 } }

/-- C4: the trailing element of the returned solution is *not* the
reduced chi-square rms(x*)²/dof.  On this concrete run the weighted sum
of squares at the solution is 4 (so rms = 2, rms² = 4) and dof = 1, so
the claim requires a trailing element of 4; the code instead stores
`chi2 / nu = rms / dof = 2` and then multiplies it by
`scale_factor = 3` — because the amplitude-rescaling slice
`p[::npars_pc]` of the length-(npars+1) vector also contains the
trailing index — returning `[3, 5, 2, 6]` with trailing element
6 ≠ 4. -/
theorem c4_trailing_element_is_not_reduced_chi_square :
    (linefit extC4 stC4 [3, 5, 2] FitFunction.gaussian none 0
        (some [(none, none), (none, none), (none, none)]) 1 none none).fit =
      some { x := [1, 5, 2], status := 0, sumsq := 4, nu := 1,
             scale_factor := 3, npars_pc := 3 } ∧
    (linefit extC4 stC4 [3, 5, 2] FitFunction.gaussian none 0
        (some [(none, none), (none, none), (none, none)]) 1 none none).em_model =
      some [(3 : ℝ), 5, 2, 6] ∧
    claimed_red_chi2 4 1 = 4 ∧
    ((6 : ℝ)) ≠ ((4 : ℝ)) := by
  have hfit : (linefit extC4 stC4 [3, 5, 2] FitFunction.gaussian none 0
      (some [(none, none), (none, none), (none, none)]) 1 none none).fit =
      some { x := [1, 5, 2], status := 0, sumsq := 4, nu := 1,
             scale_factor := 3, npars_pc := 3 } := by with_unfolding_all rfl
  have hsqrt : Real.sqrt (((4 : ℚ) : ℝ)) = 2 := by
    rw [show (((4 : ℚ) : ℝ)) = (2 : ℝ) ^ 2 by norm_num]
    exact Real.sqrt_sq (by norm_num)
  refine ⟨hfit, ?_, ?_, by norm_num⟩
  · show (linefit extC4 stC4 [3, 5, 2] FitFunction.gaussian none 0
        (some [(none, none), (none, none), (none, none)]) 1 none none).fit.map
        solutionVector = some [(3 : ℝ), 5, 2, 6]
    rw [hfit]
    have hsv : solutionVector
        { x := [1, 5, 2], status := 0, sumsq := 4, nu := 1,
          scale_factor := 3, npars_pc := 3 } =
        [((1 : ℚ) : ℝ) * ((3 : ℚ) : ℝ), ((5 : ℚ) : ℝ), ((2 : ℚ) : ℝ),
          Real.sqrt (((4 : ℚ) : ℝ)) / ((1 : ℚ) : ℝ) * ((3 : ℚ) : ℝ)] := by
      with_unfolding_all rfl
    rw [Option.map_some', hsv, hsqrt]
    norm_num
  · rw [claimed_red_chi2, hsqrt]
    norm_num

/-- A two-pixel spectrum with unit variance and a supplied zero
continuum; the continuum-subtracted signal is `[3, 1]`, so
`scale_factor = 2`. -/
def stC5 : SpecState :=
  { restwl := [10, 20], wl := [10, 20], data := [3, 1],
    variance := [1, 1], flags := [false, false], cont := some [0, 0] }

/-- Arbitrary concrete collaborators for the C5 counterexample run
(their values are irrelevant to the minimizer input). -/
def extC5 : Collaborators :=
  { continuum := fun _ _ _ => [],
    gauss := fun _ _ => [],
    gauss_hermite := fun _ _ => [],
    minimize := fun _ => { x := [0, 0, 0], status := 5 } }

/-- C5 counterexample: the claim states that the variance handed to the
minimizer is always divided by `scale_factor` squared, but the source
guards this division with `if not np.all(v == 1.)` (onedspec.py line
243).  On this run `scale_factor = 2` and the valid-pixel variance is
identically 1, so the claim requires the minimizer to receive
`[1/4, 1/4]`; the code passes `[1, 1]` unchanged. -/
theorem c5_unit_variance_not_divided :
    (linefit extC5 stC5 [4, 5000, 2] FitFunction.gaussian none 0
        (some [(none, none), (none, none), (none, none)]) 1 none none).minimizer_input =
      some { fitwl := [10, 20], s := [3/2, 1/2], v := [1, 1], w := [1, 1],
             x0 := [2, 5000, 2],
             sbounds := [(none, none), (none, none), (none, none)],
             nconstraints := 0 } ∧
    ([1, 1] : List ℚ) ≠
      [1 / 2 ^ 2, 1 / 2 ^ 2] :=
  ⟨by with_unfolding_all rfl, by norm_num⟩

/-- C5 as amended: whenever `Spectrum.linefit` reaches the minimizer,
the working values it passes are the normalized ones — the
continuum-subtracted signal divided by `scale_factor`, the variance
divided by `scale_factor` squared *unless it is identically 1, in which
case it is left unchanged*, and the first (amplitude) parameter of
every parameter block of the initial guess and of the bounds divided by
`scale_factor`, with `None` (unbounded) endpoints staying `None`. -/
theorem c5_minimizer_input_normalized
    (ext : Collaborators) (st : SpecState) (p0 : List ℚ) (fn : FitFunction)
    (fw : Option (ℚ × ℚ)) (cons : ℕ) (bs : List (Option ℚ × Option ℚ))
    (idisp : ℚ) (copts : Option Copts) (wts : Option (List ℚ))
    (mi : MinimizerInput)
    (hfn : fn ≠ FitFunction.unknown)
    (hmi : (linefit ext st p0 fn fw cons (some bs) idisp copts wts).minimizer_input
      = some mi) :
    ∀ valid data cont s0 v0 sf,
      valid = valid_mask st (fwMask st fw) →
      data = maskSelect st.data valid →
      cont = (match st.cont with
              | some c => c
              | none => ext.continuum (maskSelect st.restwl valid) data
                  { (match copts with | none => defaultCopts | some c => c) with
                    returns_function := true }) →
      s0 = vsub data cont →
      v0 = maskSelect st.variance valid →
      sf = lmean s0 →
      mi.s = s0.map (fun x => x / sf) ∧
      mi.v = (if v0.all (fun x => decide (x = 1)) then v0
              else v0.map (fun x => x / sf ^ 2)) ∧
      mi.x0 = divEvery (nparsPerComponent fn) sf p0 ∧
      mi.sbounds = scale_bounds bs sf (nparsPerComponent fn) ∧
      (∀ i : ℕ, i % nparsPerComponent fn = 0 → ∀ lo hi,
        bs.get? i = some (lo, hi) →
        mi.sbounds.get? i =
          some (lo.map (fun x => x / sf), hi.map (fun x => x / sf))) := by
  intro valid data cont s0 v0 sf hvalid hdata hcont hs0 hv0 hsf
  have hb : ∀ sfv k, (hsb : mi.sbounds = scale_bounds bs sfv k) →
      ∀ i : ℕ, i % k = 0 → ∀ lo hi, bs.get? i = some (lo, hi) →
      mi.sbounds.get? i =
        some (lo.map (fun x => x / sfv), hi.map (fun x => x / sfv)) := by
    intro sfv k hsb i hik lo hi hbs
    rw [hsb, scale_bounds, List.get?_map, List.get?_enum, hbs]
    simp [hik]
  cases fn with
  | unknown => exact absurd rfl hfn
  | gaussian =>
    simp only [linefit.eq_def] at hmi
    split at hmi
    · exact absurd hmi (by simp [baseOutcome])
    · split at hmi
      · exact absurd hmi (by simp [baseOutcome])
      · rw [Option.some_inj] at hmi
        subst hvalid hdata hcont hs0 hv0 hsf
        refine ⟨?_, ?_, ?_, ?_, ?_⟩
        · rw [← hmi]
        · rw [← hmi]
        · rw [← hmi]
        · rw [← hmi]
        · exact hb _ _ (by rw [← hmi])
  | gauss_hermite =>
    simp only [linefit.eq_def] at hmi
    split at hmi
    · exact absurd hmi (by simp [baseOutcome])
    · split at hmi
      · exact absurd hmi (by simp [baseOutcome])
      · rw [Option.some_inj] at hmi
        subst hvalid hdata hcont hs0 hv0 hsf
        refine ⟨?_, ?_, ?_, ?_, ?_⟩
        · rw [← hmi]
        · rw [← hmi]
        · rw [← hmi]
        · rw [← hmi]
        · exact hb _ _ (by rw [← hmi])

/-- Witness spectrum for the amended C5 theorem: variance 2 everywhere
(not identically 1, so the variance division is exercised). -/
def stC5w : SpecState :=
  { restwl := [10, 20], wl := [10, 20], data := [3, 1],
    variance := [2, 2], flags := [false, false], cont := some [0, 0] }

/-- Trivial collaborators for the C5 witness run. -/
def extC5w : Collaborators :=
  { continuum := fun _ _ _ => [],
    gauss := fun _ _ => [],
    gauss_hermite := fun _ _ => [],
    minimize := fun _ => { x := [0, 0, 0], status := 5 } }

/-- Bounds for the C5 witness run: a finite amplitude lower bound and
`None` everywhere else. -/
def bsC5w : List (Option ℚ × Option ℚ) :=
  [(some 4, none), (none, none), (none, none)]

/-- The minimizer input actually produced on the C5 witness run. -/
def miC5w : MinimizerInput :=
  { fitwl := [10, 20], s := [3/2, 1/2], v := [1/2, 1/2], w := [1, 1],
    x0 := [2, 5000, 2],
    sbounds := [(some 2, none), (none, none), (none, none)],
    nconstraints := 0 }

/-- Witness for the amended C5 theorem at a concrete run with
`scale_factor = 2` and variance 2 everywhere. -/
theorem c5_minimizer_input_normalized_witness :
    miC5w.s = ([3, 1] : List ℚ).map (fun x => x / 2) ∧
    miC5w.v = (if ([2, 2] : List ℚ).all (fun x => decide (x = 1)) then
        ([2, 2] : List ℚ) else ([2, 2] : List ℚ).map (fun x => x / 2 ^ 2)) ∧
    miC5w.x0 = divEvery (nparsPerComponent FitFunction.gaussian) 2 [4, 5000, 2] ∧
    miC5w.sbounds = scale_bounds bsC5w 2 (nparsPerComponent FitFunction.gaussian) ∧
    (∀ i : ℕ, i % nparsPerComponent FitFunction.gaussian = 0 → ∀ lo hi,
      bsC5w.get? i = some (lo, hi) →
      miC5w.sbounds.get? i =
        some (lo.map (fun x => x / 2), hi.map (fun x => x / 2))) :=
  c5_minimizer_input_normalized extC5w stC5w [4, 5000, 2] FitFunction.gaussian
    none 0 bsC5w 1 none none miC5w (by decide) (by with_unfolding_all rfl)
    [true, true] [3, 1] [0, 0] [3, 1] [2, 2] 2
    (by decide) (by decide) (by with_unfolding_all rfl)
    (by with_unfolding_all rfl) (by decide) (by with_unfolding_all rfl)

/-- A two-pixel spectrum with a supplied zero continuum and
`scale_factor = 2`, used to exhibit the in-place mutation of the
caller's arguments. -/
def stC8 : SpecState :=
  { restwl := [10, 20], wl := [10, 20], data := [3, 1],
    variance := [1, 1], flags := [false, false], cont := some [0, 0] }

/-- Arbitrary concrete collaborators for the C8 counterexample run. -/
def extC8 : Collaborators :=
  { continuum := fun _ _ _ => [],
    gauss := fun _ _ => [],
    gauss_hermite := fun _ _ => [],
    minimize := fun _ => { x := [0, 0, 0], status := 5 } }

/-- C8 counterexample: `Spectrum.linefit` is claimed to leave the
caller-supplied `p0` and `copts` unchanged, but on this run
`p0[::npars_pc] /= scale_factor` (onedspec.py line 245) halves the
caller's amplitude entry in place, and
`copts.update(dict(returns='function'))` (line 193) adds an entry to
the caller's dictionary. -/
theorem c8_caller_arguments_mutated :
    (linefit extC8 stC8 [4, 5000, 2] FitFunction.gaussian none 0
        (some [(none, none), (none, none), (none, none)]) 1
        (some defaultCopts) none).p0_after = [2, 5000, 2] ∧
    ([2, 5000, 2] : List ℚ) ≠ [4, 5000, 2] ∧
    (linefit extC8 stC8 [4, 5000, 2] FitFunction.gaussian none 0
        (some [(none, none), (none, none), (none, none)]) 1
        (some defaultCopts) none).copts_after =
      some { defaultCopts with returns_function := true } ∧
    some { defaultCopts with returns_function := true } ≠ some defaultCopts :=
  ⟨by with_unfolding_all rfl, by decide, by with_unfolding_all rfl, by decide⟩

/-- C8 as amended: the caller-supplied bounds are never mutated
(`scale_bounds` operates on a deep copy); but a caller-supplied
`copts` dictionary gains the entry `returns='function'` on every call
that passes the function-name check, and the caller's `p0` array is
either left unchanged (early-exit paths) or has every
`npars_pc`-th (amplitude) entry divided in place by the scale
factor. -/
theorem c8_side_effects_characterized
    (ext : Collaborators) (st : SpecState) (p0 : List ℚ) (fn : FitFunction)
    (fw : Option (ℚ × ℚ)) (cons : ℕ)
    (bounds : Option (List (Option ℚ × Option ℚ))) (idisp : ℚ)
    (copts : Option Copts) (wts : Option (List ℚ)) :
    (linefit ext st p0 fn fw cons bounds idisp copts wts).bounds_after
      = bounds ∧
    (linefit ext st p0 fn fw cons bounds idisp copts wts).copts_after
      = (match fn with
         | FitFunction.unknown => copts
         | _ => copts.map (fun c => { c with returns_function := true })) ∧
    ((linefit ext st p0 fn fw cons bounds idisp copts wts).p0_after = p0 ∨
      (linefit ext st p0 fn fw cons bounds idisp copts wts).p0_after =
        divEvery (nparsPerComponent fn)
          (lmean (vsub (maskSelect st.data (valid_mask st (fwMask st fw)))
            (match st.cont with
             | some c => c
             | none => ext.continuum
                 (maskSelect st.restwl (valid_mask st (fwMask st fw)))
                 (maskSelect st.data (valid_mask st (fwMask st fw)))
                 { (match copts with | none => defaultCopts | some c => c) with
                   returns_function := true }))) p0) := by
  cases fn with
  | unknown => exact ⟨rfl, rfl, Or.inl rfl⟩
  | gaussian =>
    refine ⟨?_, ?_, ?_⟩
    · simp only [linefit.eq_def]
      split
      · rfl
      · split
        · rfl
        · split
          · rfl
          · rfl
    · simp only [linefit.eq_def]
      split
      · rfl
      · split
        · rfl
        · split
          · rfl
          · rfl
    · simp only [linefit.eq_def]
      split
      · exact Or.inl rfl
      · split
        · exact Or.inl rfl
        · split
          · exact Or.inr rfl
          · exact Or.inr rfl
  | gauss_hermite =>
    refine ⟨?_, ?_, ?_⟩
    · simp only [linefit.eq_def]
      split
      · rfl
      · split
        · rfl
        · split
          · rfl
          · rfl
    · simp only [linefit.eq_def]
      split
      · rfl
      · split
        · rfl
        · split
          · rfl
          · rfl
    · simp only [linefit.eq_def]
      split
      · exact Or.inl rfl
      · split
        · exact Or.inl rfl
        · split
          · exact Or.inr rfl
          · exact Or.inr rfl

/-- C9: with `bounds=None` — as in the claimed end-to-end scenario
"single-gaussian initial guess `[4, 5000, 1.8]` and no bounds" — a
gaussian `Spectrum.linefit` call can never converge with status 0, for
*every* spectrum (hence in particular the synthetic
continuum-plus-gaussian one), every continuum estimate and every
minimizer behaviour: the minimizer is never invoked and no solution is
ever produced.  Either the call exits early (status 98, or the
status-97 path that records nothing), or it reaches
`scale_bounds(bounds, ...)` whose loop `for j in b[::npars_pc]` raises
`TypeError` because `None` is not subscriptable. -/
theorem c9_no_bounds_crashes_before_optimization
    (ext : Collaborators) (st : SpecState) (p0 : List ℚ)
    (fw : Option (ℚ × ℚ)) (cons : ℕ) (idisp : ℚ)
    (copts : Option Copts) (wts : Option (List ℚ)) :
    (linefit ext st p0 FitFunction.gaussian fw cons none idisp copts wts).fit
      = none ∧
    (linefit ext st p0 FitFunction.gaussian fw cons none idisp copts wts).ret
      = none ∧
    (linefit ext st p0 FitFunction.gaussian fw cons none idisp copts wts).minimizer_input
      = none ∧
    (linefit ext st p0 FitFunction.gaussian fw cons none idisp copts wts).fit_status
      ≠ some 0 ∧
    ((linefit ext st p0 FitFunction.gaussian fw cons none idisp copts wts).err
        = some PyErr.typeError ∨
      (linefit ext st p0 FitFunction.gaussian fw cons none idisp copts wts).fit_status
        = some 98 ∨
      ((linefit ext st p0 FitFunction.gaussian fw cons none idisp copts wts).err
          = none ∧
        (linefit ext st p0 FitFunction.gaussian fw cons none idisp copts wts).fit_status
          = none)) := by
  have hfit : (linefit ext st p0 FitFunction.gaussian fw cons none idisp copts
      wts).fit = none := by
    simp only [linefit.eq_def]
    split
    · rfl
    · split
      · rfl
      · rfl
  refine ⟨hfit, ?_, ?_, ?_, ?_⟩
  · show (linefit ext st p0 FitFunction.gaussian fw cons none idisp copts
        wts).fit.map solutionVector = none
    rw [hfit]; rfl
  · simp only [linefit.eq_def]
    split
    · rfl
    · split
      · rfl
      · rfl
  · simp only [linefit.eq_def]
    split
    · simp [baseOutcome]
    · split
      · simp [baseOutcome]
      · simp [baseOutcome]
  · simp only [linefit.eq_def]
    split
    · exact Or.inr (Or.inl rfl)
    · split
      · exact Or.inr (Or.inr ⟨rfl, rfl⟩)
      · exact Or.inl rfl

/-- Keyword names that can occur in the `**kwargs` of `Cube.linefit`
(datacube.py line 747) and are forwarded verbatim to
`spec.linefit(p0, **kwargs)` at line 956.  `feature_wl` is read by
`Cube.linefit` at line 958; `flags`, `variance` and `weights` are also
read (non-destructively, via `kwargs.get`) at lines 843-861; `other`
stands for any keyword not otherwise listed. -/
inductive CubeKw
  | function
  | fitting_window
  | writefits
  | outimage
  | variance
  | constraints
  | bounds
  | inst_disp
  | min_method
  | minopts
  | copts
  | weights
  | feature_wl
  | flags
  | other
  deriving DecidableEq, Repr

/-- The parameter names of this repository's `Spectrum.linefit`
signature (onedspec.py lines 67-71).  Calling it with any keyword
outside this set raises `TypeError: unexpected keyword argument`. -/
def spectrumLinefitParams : List CubeKw :=
  [CubeKw.function, CubeKw.fitting_window, CubeKw.writefits,
   CubeKw.outimage, CubeKw.variance, CubeKw.constraints, CubeKw.bounds,
   CubeKw.inst_disp, CubeKw.min_method, CubeKw.minopts, CubeKw.copts,
   CubeKw.weights]

/-- One iteration of the fitting loop of `Cube.linefit`
(datacube.py lines 925-995), reduced to whether it raises: the call
`spec.linefit(p0, **kwargs)` (line 956) raises `TypeError` when
`kwargs` holds a keyword that is not a parameter of `Spectrum.linefit`;
an exception raised inside `Spectrum.linefit` propagates; otherwise
`self.feature_wl = kwargs['feature_wl']` (line 958) raises `KeyError`
when the key is absent.  Only if all of these survived would the
iteration reach the equivalent-width bookkeeping and the scattering of
`spec.em_model`, `spec.eqw_model`, `spec.component_names`,
`spec.initial_guess` and `spec.fitbounds` into the cube arrays (lines
961-995) — attributes this repository's `Spectrum.linefit` never sets
either. -/
def cube_linefit_iteration (kwargs : List CubeKw)
    (specFit : LinefitOutcome) : Option PyErr :=
  if kwargs.any (fun k => decide (k ∉ spectrumLinefitParams)) then
    some PyErr.typeError
  else
    match specFit.err with
    | some e => some e
    | none =>
        if CubeKw.feature_wl ∈ kwargs then none else some PyErr.keyError

/-- C1: with this repository's `Spectrum.linefit`, no iteration of the
`Cube.linefit` fitting loop can complete, whatever keyword arguments
the caller supplies and whatever the per-spectrum fit did: if
`feature_wl` is passed it is an unexpected keyword for
`Spectrum.linefit` (`TypeError`); if it is not passed, line 958's
`kwargs['feature_wl']` raises `KeyError` (after any exception from the
fit itself has already propagated).  Hence `Cube.linefit` raises on
its very first coordinate and never completes — in particular the
claimed end-to-end scenario (one all-flagged spaxel out of several,
run completing with that spaxel's status 98, all-NaN solution and
untouched neighbours) cannot be produced by this code. -/
theorem c1_cube_linefit_iteration_always_raises
    (kwargs : List CubeKw) (specFit : LinefitOutcome) :
    (cube_linefit_iteration kwargs specFit).isSome = true := by
  rw [cube_linefit_iteration]
  by_cases hbad : kwargs.any (fun k => decide (k ∉ spectrumLinefitParams)) = true
  · rw [if_pos hbad]
    rfl
  · rw [if_neg hbad]
    have hfw : CubeKw.feature_wl ∉ kwargs := by
      intro hmem
      exact hbad (List.any_eq_true.mpr ⟨CubeKw.feature_wl, hmem, by decide⟩)
    cases herr : specFit.err with
    | some e => rfl
    | none =>
        rw [if_neg hfw]
        rfl

/-- Row-major enumeration of the full spatial grid, as produced by
`yy, xx = np.indices(fit_shape[1:])` (datacube.py line 888), which the
refit mask ranges over. -/
def gridCoords (rows cols : ℕ) : List (ℕ × ℕ) :=
  (List.range rows).bind (fun y => (List.range cols).map (fun x => (y, x)))

/-- The state of a refit-enabled `Cube.linefit` run when the loop
reaches a new coordinate: the grid shape, the solution cube `sol`
(one length-(npars+1) vector per spaxel, trailing entry = reduced
chi-square slot) and the `fit_status` array (initialised to -1,
written as each spaxel is fit). -/
structure CubeFitState where
  rows : ℕ
  cols : ℕ
  sol : ℕ → ℕ → List ℚ
  fit_status : ℕ → ℕ → ℤ

/-- The coordinates selected by the refit mask
`(radsol < refit_radius) & (self.fit_status == 0)` (datacube.py lines
943-945), where `radsol = np.sqrt((yy - i)**2 + (xx - j)**2)`.  Since
`radsol` is non-negative, `radsol < refit_radius` holds exactly when
`0 < refit_radius` and the squared distance is below
`refit_radius**2`. -/
def refit_matches (g : CubeFitState) (i j : ℕ) (radius : ℚ) : List (ℕ × ℕ) :=
  (gridCoords g.rows g.cols).filter (fun c =>
    decide (0 < radius) &&
    decide ((((c.1 : ℚ) - (i : ℚ)) ^ 2 + ((c.2 : ℚ) - (j : ℚ)) ^ 2) < radius ^ 2) &&
    decide (g.fit_status c.1 c.2 = 0))

/-- The matched parameter vectors `nearsol = sol[:-1, mask]`, viewed
column-wise (i.e. `nearsol.transpose()`): one solved parameter vector
per matching coordinate, with the trailing reduced chi-square
dropped. -/
def refit_near (g : CubeFitState) (i j : ℕ) (radius : ℚ) : List (List ℚ) :=
  (refit_matches g i j radius).map (fun c => (g.sol c.1 c.2).dropLast)

/-- Column-wise `np.average(nearsol.transpose(), 0)`: the coordinate-wise
arithmetic mean of the matched parameter vectors. -/
def columnMean (vs : List (List ℚ)) : List ℚ :=
  match vs with
  | [] => []
  | v0 :: _ =>
      (List.range v0.length).map
        (fun k => (vs.map (fun v => v.getD k 0)).sum / (vs.length : ℚ))

/-- The initial-guess update of the refit block (datacube.py lines
947-950): if `np.shape(nearsol) == (5, 1)` — i.e. the parameter count
is 5 *and* exactly one coordinate matched — reuse that vector (the
source assigns `nearsol.transpose()`, a (1,5) row, whose values are the
matched vector); otherwise, if `np.any(nearsol)` (some matched entry is
nonzero), use the column-wise average; otherwise leave `p0`
unchanged. -/
def refit_update (g : CubeFitState) (i j : ℕ) (radius : ℚ) (p0 : List ℚ) :
    List ℚ :=
  let near := refit_near g i j radius
  if near.length = 1 ∧ (near.headD []).length = 5 then near.headD p0
  else if near.any (fun v => v.any (fun x => decide (x ≠ 0))) then
    columnMean near
  else p0

/-- Averaging a single vector returns that vector. -/
theorem columnMean_singleton (v : List ℚ) : columnMean [v] = v := by
  rw [columnMean]
  apply List.ext_getElem
  · simp
  · intro i h1 h2
    simp only [List.getElem_map, List.getElem_range, List.map_cons,
      List.map_nil, List.sum_cons, List.sum_nil, List.length_cons,
      List.length_nil]
    rw [List.getD_eq_getElem _ _ (by simpa using h2)]
    push_cast
    ring

/-- The 1×2 grid for the C7 counterexample: the already-visited spaxel
(0,0) converged (status 0) with the all-zero parameter vector
`[0, 0, 0]` (trailing chi-square slot 7); everything else is
unvisited. -/
def gC7 : CubeFitState :=
  { rows := 1, cols := 2,
    sol := fun y x => if y = 0 ∧ x = 0 then [0, 0, 0, 7] else [0, 0, 0, 0],
    fit_status := fun y x => if y = 0 ∧ x = 0 then 0 else -1 }

/-- C7 counterexample: at coordinate (0,1) with `refit_radius = 2`,
exactly one previously visited coordinate within the radius has status
0, and its solved parameter vector (excluding the trailing reduced
chi-square) is `[0, 0, 0]`.  The claim says this vector is reused
verbatim as the next initial guess; but with 3 parameters the
`(5, 1)`-shape branch does not fire, and `np.any(nearsol)` is `False`
on an all-zero vector, so the code leaves the previous initial guess
`[4, 5000, 9/5]` in place instead. -/
theorem c7_single_zero_match_not_reused :
    (refit_near gC7 0 1 2).length = 1 ∧
    refit_near gC7 0 1 2 = [[0, 0, 0]] ∧
    refit_update gC7 0 1 2 [4, 5000, 9/5] = [4, 5000, 9/5] ∧
    ([4, 5000, 9/5] : List ℚ) ≠ [0, 0, 0] :=
  ⟨by with_unfolding_all rfl, by with_unfolding_all rfl,
    by with_unfolding_all rfl, by decide⟩

/-- C7 as amended: with no qualifying coordinate the previous initial
guess is kept; with exactly one qualifying coordinate whose parameter
vector has a nonzero entry (or has the gauss-hermite parameter count 5,
for which the shape test fires regardless) that vector's values are
reused; with several qualifying coordinates, at least one entry of
which is nonzero, the coordinate-wise arithmetic mean is used; and when
every entry of every qualifying vector is zero (and the single-match
shape test does not fire) the previous initial guess is kept. -/
theorem c7_refit_update_characterized
    (g : CubeFitState) (i j : ℕ) (radius : ℚ) (p0 : List ℚ) :
    (refit_near g i j radius = [] → refit_update g i j radius p0 = p0) ∧
    (∀ v, refit_near g i j radius = [v] →
      (v.any (fun x => decide (x ≠ 0)) = true ∨ v.length = 5) →
      refit_update g i j radius p0 = v) ∧
    (∀ vs, refit_near g i j radius = vs → 1 < vs.length →
      vs.any (fun v => v.any (fun x => decide (x ≠ 0))) = true →
      refit_update g i j radius p0 = columnMean vs) ∧
    ((refit_near g i j radius).any
        (fun v => v.any (fun x => decide (x ≠ 0))) = false →
      ¬((refit_near g i j radius).length = 1 ∧
        ((refit_near g i j radius).headD []).length = 5) →
      refit_update g i j radius p0 = p0) := by
  refine ⟨?_, ?_, ?_, ?_⟩
  · intro hnil
    rw [refit_update]
    simp [hnil]
  · intro v hnear hv
    rw [refit_update]
    simp only [hnear]
    by_cases h5 : v.length = 5
    · rw [if_pos ⟨by simp, by simpa using h5⟩]
      simp
    · have hnz : v.any (fun x => decide (x ≠ 0)) = true := hv.resolve_right h5
      rw [if_neg (by simpa using h5)]
      rw [if_pos (by simpa using hnz)]
      exact columnMean_singleton v
  · intro vs hnear hlen hnz
    rw [refit_update]
    simp only [hnear]
    rw [if_neg ?_, if_pos hnz]
    rintro ⟨h1, _⟩
    omega
  · intro hz hshape
    rw [refit_update]
    rw [if_neg hshape, if_neg (by rw [hz]; exact Bool.false_ne_true)]

/-- Witness grid for the C7 amended theorem: the visited spaxel (0,0)
converged with the nonzero parameter vector `[1, 2, 3]` (trailing
chi-square slot 9). -/
def gC7w : CubeFitState :=
  { rows := 1, cols := 2,
    sol := fun y x => if y = 0 ∧ x = 0 then [1, 2, 3, 9] else [0, 0, 0, 0],
    fit_status := fun y x => if y = 0 ∧ x = 0 then 0 else -1 }

/-- Witness for the amended C7 theorem: with exactly one qualifying
nonzero neighbour, its parameter values are reused as the next initial
guess. -/
theorem c7_refit_update_characterized_witness :
    refit_update gC7w 0 1 2 [7, 7, 7] = [1, 2, 3] :=
  (c7_refit_update_characterized gC7w 0 1 2 [7, 7, 7]).2.1 [1, 2, 3]
    (by with_unfolding_all rfl) (Or.inl (by decide))

/-! ### `Cube._spiral` (datacube.py lines 392-416)

Coordinates are (row, column) pairs; the spiral center is an
(x, y) = (column, row) pair, as in the source
(`spiral_center = (x.max() / 2., y.max() / 2.)`).  `np.argsort` with
`order=['radius', 'angle']` sorts the coordinates by the float radius
`np.sqrt((x-cx)**2 + (y-cy)**2)` ascending, breaking ties by the
normalized angle `t = arctan2(y-cy, x-cx); t[t<0] += 2*pi` ascending.
Ordering by the non-negative radius coincides with ordering by the
squared radius, and ordering by the normalized arctan2 angle is
realized by the decidable comparison `angLe` below (proved against the
real angle in `normAngle_le_of_angLe`). -/

/-- Displacement `(dy, dx) = (y - center_y, x - center_x)` of a
coordinate `p = (row, col)` from the spiral center `(cx, cy)`. -/
def disp (center : ℚ × ℚ) (p : ℚ × ℚ) : ℚ × ℚ :=
  (p.1 - center.2, p.2 - center.1)

/-- Squared radial distance `(x - cx)**2 + (y - cy)**2`. -/
def sqDist (center : ℚ × ℚ) (p : ℚ × ℚ) : ℚ :=
  (p.2 - center.1) ^ 2 + (p.1 - center.2) ^ 2

/-- Quadrant class of a displacement `(dy, dx)`, numbered in the order
of the normalized arctan2 angle: class 0 ⇔ angle 0 (`dy = 0`, `dx ≥ 0`,
including the origin, for which `np.arctan2(0, 0) = 0`); class 1 ⇔
angle in (0, π) (`dy > 0`); class 2 ⇔ angle π (`dy = 0`, `dx < 0`);
class 3 ⇔ angle in (π, 2π) (`dy < 0`). -/
def angClass (d : ℚ × ℚ) : ℕ :=
  if 0 < d.1 then 1 else if d.1 = 0 then (if d.2 < 0 then 2 else 0) else 3

/-- Decidable comparison realizing "normalized arctan2 angle of `a` ≤
normalized arctan2 angle of `b`": distinct quadrant classes compare by
class number; the singleton classes 0 and 2 are tied; within class 1 or
3 the angles compare by cotangent, i.e. by the cross product
`dx_a*dy_b ≥ dx_b*dy_a`. -/
def angLe (a b : ℚ × ℚ) : Bool :=
  if angClass a = angClass b then
    (if angClass a = 1 ∨ angClass a = 3 then
      decide (b.2 * a.1 ≤ a.2 * b.1)
    else true)
  else decide (angClass a < angClass b)

/-- The sort key order of `np.argsort(b, order=['radius', 'angle'])`:
radius ascending, ties broken by angle ascending. -/
def spiralLe (center : ℚ × ℚ) (p q : ℚ × ℚ) : Prop :=
  sqDist center p < sqDist center q ∨
    (sqDist center p = sqDist center q ∧
      angLe (disp center p) (disp center q) = true)

instance (center : ℚ × ℚ) : DecidableRel (spiralLe center) := fun p q => by
  unfold spiralLe
  infer_instance

/-- Trichotomy of the quadrant class by the sign of `dy`. -/
theorem angClass_cases (d : ℚ × ℚ) :
    (angClass d = 1 ∧ 0 < d.1) ∨ (angClass d = 3 ∧ d.1 < 0) ∨
    ((angClass d = 0 ∨ angClass d = 2) ∧ d.1 = 0) := by
  unfold angClass
  split_ifs with h1 h2 h3
  · exact Or.inl ⟨rfl, h1⟩
  · exact Or.inr (Or.inr ⟨Or.inr rfl, h2⟩)
  · exact Or.inr (Or.inr ⟨Or.inl rfl, h2⟩)
  · exact Or.inr (Or.inl ⟨rfl, lt_of_le_of_ne (not_lt.mp h1) h2⟩)

/-- Class 1 displacements have positive `dy`. -/
theorem pos_of_angClass_one {d : ℚ × ℚ} (h : angClass d = 1) : 0 < d.1 := by
  rcases angClass_cases d with ⟨_, hp⟩ | ⟨hc, _⟩ | ⟨hc, _⟩
  · exact hp
  · exact absurd (h.symm.trans hc) (by decide)
  · rcases hc with hc | hc <;> exact absurd (h.symm.trans hc) (by decide)

/-- Class 3 displacements have negative `dy`. -/
theorem neg_of_angClass_three {d : ℚ × ℚ} (h : angClass d = 3) : d.1 < 0 := by
  rcases angClass_cases d with ⟨hc, _⟩ | ⟨_, hn⟩ | ⟨hc, _⟩
  · exact absurd (h.symm.trans hc) (by decide)
  · exact hn
  · rcases hc with hc | hc <;> exact absurd (h.symm.trans hc) (by decide)

/-- Chaining cross-product comparisons through a common positive-`dy`
displacement. -/
theorem crossTransPos {a1 a2 b1 b2 c1 c2 : ℚ} (ha : 0 < a1) (hb : 0 < b1)
    (hc : 0 < c1) (h1 : b2 * a1 ≤ a2 * b1) (h2 : c2 * b1 ≤ b2 * c1) :
    c2 * a1 ≤ a2 * c1 := by
  nlinarith [mul_le_mul_of_nonneg_right h1 hc.le,
    mul_le_mul_of_nonneg_right h2 ha.le, hb]

/-- Chaining cross-product comparisons through a common negative-`dy`
displacement. -/
theorem crossTransNeg {a1 a2 b1 b2 c1 c2 : ℚ} (ha : a1 < 0) (hb : b1 < 0)
    (hc : c1 < 0) (h1 : b2 * a1 ≤ a2 * b1) (h2 : c2 * b1 ≤ b2 * c1) :
    c2 * a1 ≤ a2 * c1 := by
  nlinarith [mul_le_mul_of_nonpos_right h1 hc.le,
    mul_le_mul_of_nonpos_right h2 ha.le, hb]

/-- The angle comparison is total. -/
theorem angLe_total (a b : ℚ × ℚ) : angLe a b = true ∨ angLe b a = true := by
  unfold angLe
  by_cases e : angClass a = angClass b
  · rw [if_pos e, if_pos e.symm]
    by_cases h13 : angClass a = 1 ∨ angClass a = 3
    · rw [if_pos h13, if_pos (by rwa [← e])]
      rcases le_total (b.2 * a.1) (a.2 * b.1) with h | h
      · exact Or.inl (decide_eq_true h)
      · exact Or.inr (decide_eq_true h)
    · rw [if_neg h13, if_neg (by rwa [← e])]
      exact Or.inl rfl
  · rw [if_neg e, if_neg (Ne.symm e)]
    rcases Nat.lt_or_ge (angClass a) (angClass b) with h | h
    · exact Or.inl (decide_eq_true h)
    · exact Or.inr (decide_eq_true
        (lt_of_le_of_ne h (fun hh => e hh.symm)))

/-- The angle comparison is transitive. -/
theorem angLe_trans (a b c : ℚ × ℚ) (h1 : angLe a b = true)
    (h2 : angLe b c = true) : angLe a c = true := by
  unfold angLe at h1 h2 ⊢
  by_cases e1 : angClass a = angClass b <;>
    by_cases e2 : angClass b = angClass c
  · rw [if_pos e1] at h1
    rw [if_pos e2] at h2
    rw [if_pos (e1.trans e2)]
    by_cases h13 : angClass a = 1 ∨ angClass a = 3
    · rw [if_pos h13] at h1 ⊢
      rw [if_pos (by rwa [← e1])] at h2
      have hab := of_decide_eq_true h1
      have hbc := of_decide_eq_true h2
      apply decide_eq_true
      rcases h13 with hcl | hcl
      · exact crossTransPos (pos_of_angClass_one hcl)
          (pos_of_angClass_one (e1.symm.trans hcl))
          (pos_of_angClass_one ((e1.trans e2).symm.trans hcl)) hab hbc
      · exact crossTransNeg (neg_of_angClass_three hcl)
          (neg_of_angClass_three (e1.symm.trans hcl))
          (neg_of_angClass_three ((e1.trans e2).symm.trans hcl)) hab hbc
    · rw [if_neg h13]
  · rw [if_neg e2] at h2
    have hlt := of_decide_eq_true h2
    rw [if_neg (show angClass a ≠ angClass c by rw [e1]; exact e2)]
    exact decide_eq_true (show angClass a < angClass c by rw [e1]; exact hlt)
  · rw [if_neg e1] at h1
    have hlt := of_decide_eq_true h1
    rw [if_neg (show angClass a ≠ angClass c by rw [← e2]; exact e1)]
    exact decide_eq_true (show angClass a < angClass c by rw [← e2]; exact hlt)
  · rw [if_neg e1] at h1
    rw [if_neg e2] at h2
    have l1 := of_decide_eq_true h1
    have l2 := of_decide_eq_true h2
    have l3 := l1.trans l2
    rw [if_neg l3.ne]
    exact decide_eq_true l3

instance (center : ℚ × ℚ) : IsTotal (ℚ × ℚ) (spiralLe center) := ⟨by
  intro p q
  rcases lt_trichotomy (sqDist center p) (sqDist center q) with h | h | h
  · exact Or.inl (Or.inl h)
  · rcases angLe_total (disp center p) (disp center q) with ha | ha
    · exact Or.inl (Or.inr ⟨h, ha⟩)
    · exact Or.inr (Or.inr ⟨h.symm, ha⟩)
  · exact Or.inr (Or.inl h)⟩

instance (center : ℚ × ℚ) : IsTrans (ℚ × ℚ) (spiralLe center) := ⟨by
  intro p q r h1 h2
  rcases h1 with h1 | ⟨e1, a1⟩
  · rcases h2 with h2 | ⟨e2, a2⟩
    · exact Or.inl (h1.trans h2)
    · exact Or.inl (h1.trans_eq e2)
  · rcases h2 with h2 | ⟨e2, a2⟩
    · exact Or.inl (e1.trans_lt h2)
    · exact Or.inr ⟨e1.trans e2, angLe_trans _ _ _ a1 a2⟩⟩

/-- `arr.max()` of a nonempty numpy array (the empty case raises and is
handled at the call site). -/
def listMax : List ℚ → ℚ
  | [] => 0
  | x :: xs => xs.foldl max x

/-- The default spiral center
`spiral_center = (x.max() / 2., y.max() / 2.)` (datacube.py line 400):
half the maximum column index and half the maximum row index of the
traversed coordinates. -/
def defaultCenter (xy : List (ℚ × ℚ)) : ℚ × ℚ :=
  (listMax (xy.map Prod.snd) / 2, listMax (xy.map Prod.fst) / 2)

/-- Embedding of `Cube._spiral` (datacube.py lines 392-416) on the
coordinate collection it traverses (the supplied list when the cube is
binned, otherwise `spec_indices`), as (row, column) pairs.  With no
explicit center and an empty coordinate list, `x.max()` raises a
zero-size reduction `ValueError`; otherwise the coordinates are
returned reordered by `np.argsort(b, order=['radius', 'angle'])`,
modelled as sorting with the total decidable preorder `spiralLe`
(radius ascending, ties by normalized angle ascending; coordinates tied
on both keys are identical points, so any sort produces the same
list). -/
def spiral (xy : List (ℚ × ℚ)) (spiral_center : Option (ℚ × ℚ)) :
    Except PyErr (List (ℚ × ℚ)) :=
  match spiral_center, xy with
  | none, [] => Except.error PyErr.valueError
  | c, l => Except.ok (List.insertionSort (spiralLe (c.getD (defaultCenter l))) l)

/-- C10: whenever `Cube._spiral` returns, its output is a permutation
of the coordinate collection it traversed — same length, same multiset
of (row, column) pairs, nothing dropped or duplicated. -/
theorem c10_spiral_is_permutation (xy : List (ℚ × ℚ))
    (c : Option (ℚ × ℚ)) (out : List (ℚ × ℚ))
    (h : spiral xy c = Except.ok out) : out.Perm xy := by
  cases c with
  | none =>
    cases xy with
    | nil => exact absurd h (by rw [spiral]; exact fun hh => Except.noConfusion hh)
    | cons a l =>
      rw [spiral] at h
      · rw [← Except.ok.inj h]
        exact List.perm_insertionSort _ _
      · intro _ hh
        exact List.noConfusion hh
  | some ctr =>
    cases xy with
    | nil =>
      rw [spiral] at h
      · rw [← Except.ok.inj h]
        exact List.perm_insertionSort _ _
      · intro hh _
        exact Option.noConfusion hh
    | cons a l =>
      rw [spiral] at h
      · rw [← Except.ok.inj h]
        exact List.perm_insertionSort _ _
      · intro _ hh
        exact List.noConfusion hh

/-- Witness for C10 at a concrete two-coordinate list with the default
center. -/
theorem c10_spiral_is_permutation_witness :
    List.Perm [((1 : ℚ), (0 : ℚ)), ((0 : ℚ), (0 : ℚ))]
      [((0 : ℚ), (0 : ℚ)), ((1 : ℚ), (0 : ℚ))] :=
  c10_spiral_is_permutation [(0, 0), (1, 0)] none [(1, 0), (0, 0)]
    (by with_unfolding_all rfl)

/-- The two-argument arctangent `np.arctan2(y, x)`, with values in
(-π, π]: the angle of the point (x, y) measured counter-clockwise from
the positive x-axis (`np.arctan2(0, 0) = 0`). -/
noncomputable def atan2 (y x : ℝ) : ℝ :=
  if 0 < x then Real.arctan (y / x)
  else if x < 0 then
    (if 0 ≤ y then Real.arctan (y / x) + Real.pi
     else Real.arctan (y / x) - Real.pi)
  else (if 0 < y then Real.pi / 2 else if y < 0 then -(Real.pi / 2) else 0)

/-- The polar angle of a displacement `(dy, dx)` normalized to
[0, 2π), measured counter-clockwise from the positive column axis — the
value `t` after `t = np.arctan2(y - cy, x - cx); t[t < 0] += 2*np.pi`
(datacube.py lines 405-406). -/
noncomputable def normAngle (d : ℚ × ℚ) : ℝ :=
  if atan2 ((d.1 : ℚ) : ℝ) ((d.2 : ℚ) : ℝ) < 0 then
    atan2 ((d.1 : ℚ) : ℝ) ((d.2 : ℚ) : ℝ) + 2 * Real.pi
  else atan2 ((d.1 : ℚ) : ℝ) ((d.2 : ℚ) : ℝ)

/-- The arctangent of a positive number is positive. -/
theorem arctanPos {x : ℝ} (h : 0 < x) : 0 < Real.arctan x := by
  have := Real.arctan_strictMono h
  rwa [Real.arctan_zero] at this

/-- The arctangent of a negative number is negative. -/
theorem arctanNeg {x : ℝ} (h : x < 0) : Real.arctan x < 0 := by
  have := Real.arctan_strictMono h
  rwa [Real.arctan_zero] at this

/-- Class-0 displacements (`dy = 0`, `dx ≥ 0`) have normalized angle
0. -/
theorem normAngle_class0_eq {d : ℚ × ℚ} (hy : d.1 = 0) (hx : ¬ d.2 < 0) :
    normAngle d = 0 := by
  have hyR : ((d.1 : ℚ) : ℝ) = 0 := by exact_mod_cast hy
  have hxR : ¬ ((d.2 : ℚ) : ℝ) < 0 := by exact_mod_cast hx
  have hval : atan2 ((d.1 : ℚ) : ℝ) ((d.2 : ℚ) : ℝ) = 0 := by
    unfold atan2
    rcases lt_or_eq_of_le (not_lt.mp hx) with hx2 | hx2
    · have hx2R : (0 : ℝ) < ((d.2 : ℚ) : ℝ) := by exact_mod_cast hx2
      rw [if_pos hx2R, hyR, zero_div, Real.arctan_zero]
    · have hx2R : ((d.2 : ℚ) : ℝ) = 0 := by exact_mod_cast hx2.symm
      rw [if_neg (by rw [hx2R]; exact lt_irrefl 0), if_neg hxR, hyR,
        if_neg (lt_irrefl 0), if_neg (lt_irrefl 0)]
  unfold normAngle
  rw [hval, if_neg (lt_irrefl 0)]

/-- Class-2 displacements (`dy = 0`, `dx < 0`) have normalized angle
π. -/
theorem normAngle_class2_eq {d : ℚ × ℚ} (hy : d.1 = 0) (hx : d.2 < 0) :
    normAngle d = Real.pi := by
  have hyR : ((d.1 : ℚ) : ℝ) = 0 := by exact_mod_cast hy
  have hxR : ((d.2 : ℚ) : ℝ) < 0 := by exact_mod_cast hx
  have hval : atan2 ((d.1 : ℚ) : ℝ) ((d.2 : ℚ) : ℝ) = Real.pi := by
    unfold atan2
    rw [if_neg (not_lt.mpr hxR.le), if_pos hxR, hyR, if_pos le_rfl, zero_div,
      Real.arctan_zero, zero_add]
  unfold normAngle
  rw [hval, if_neg (not_lt.mpr Real.pi_pos.le)]

/-- Class-1 displacements (`dy > 0`): the normalized angle is the
standard arctangent expression in the upper half plane. -/
theorem normAngle_class1_eq {d : ℚ × ℚ} (hy : 0 < d.1) :
    normAngle d =
      if 0 < d.2 then Real.arctan (((d.1 : ℚ) : ℝ) / ((d.2 : ℚ) : ℝ))
      else if d.2 = 0 then Real.pi / 2
      else Real.arctan (((d.1 : ℚ) : ℝ) / ((d.2 : ℚ) : ℝ)) + Real.pi := by
  have hyR : (0 : ℝ) < ((d.1 : ℚ) : ℝ) := by exact_mod_cast hy
  rcases lt_trichotomy (0 : ℚ) d.2 with hx | hx | hx
  · have hxR : (0 : ℝ) < ((d.2 : ℚ) : ℝ) := by exact_mod_cast hx
    rw [if_pos hx]
    have hval : atan2 ((d.1 : ℚ) : ℝ) ((d.2 : ℚ) : ℝ) =
        Real.arctan (((d.1 : ℚ) : ℝ) / ((d.2 : ℚ) : ℝ)) := by
      unfold atan2
      rw [if_pos hxR]
    unfold normAngle
    rw [hval, if_neg (not_lt.mpr (arctanPos (div_pos hyR hxR)).le)]
  · rw [if_neg (by rw [← hx]; exact lt_irrefl 0), if_pos hx.symm]
    have hxR : ((d.2 : ℚ) : ℝ) = 0 := by exact_mod_cast hx.symm
    have hval : atan2 ((d.1 : ℚ) : ℝ) ((d.2 : ℚ) : ℝ) = Real.pi / 2 := by
      unfold atan2
      rw [hxR, if_neg (lt_irrefl 0), if_neg (lt_irrefl 0), if_pos hyR]
    unfold normAngle
    rw [hval, if_neg (not_lt.mpr (by positivity))]
  · have hxR : ((d.2 : ℚ) : ℝ) < 0 := by exact_mod_cast hx
    rw [if_neg (not_lt.mpr hx.le), if_neg hx.ne]
    have hval : atan2 ((d.1 : ℚ) : ℝ) ((d.2 : ℚ) : ℝ) =
        Real.arctan (((d.1 : ℚ) : ℝ) / ((d.2 : ℚ) : ℝ)) + Real.pi := by
      unfold atan2
      rw [if_neg (not_lt.mpr hxR.le), if_pos hxR, if_pos hyR.le]
    unfold normAngle
    rw [hval, if_neg (not_lt.mpr (by
      have := Real.neg_pi_div_two_lt_arctan (((d.1 : ℚ) : ℝ) / ((d.2 : ℚ) : ℝ))
      have hpi := Real.pi_pos
      linarith))]

/-- Class-1 displacements have normalized angle strictly between 0 and
π. -/
theorem normAngle_class1_bounds {d : ℚ × ℚ} (hy : 0 < d.1) :
    0 < normAngle d ∧ normAngle d < Real.pi := by
  have hyR : (0 : ℝ) < ((d.1 : ℚ) : ℝ) := by exact_mod_cast hy
  have hpi := Real.pi_pos
  rw [normAngle_class1_eq hy]
  rcases lt_trichotomy (0 : ℚ) d.2 with hx | hx | hx
  · have hxR : (0 : ℝ) < ((d.2 : ℚ) : ℝ) := by exact_mod_cast hx
    rw [if_pos hx]
    have h1 := arctanPos (div_pos hyR hxR)
    have h2 := Real.arctan_lt_pi_div_two (((d.1 : ℚ) : ℝ) / ((d.2 : ℚ) : ℝ))
    constructor
    · exact h1
    · linarith
  · rw [if_neg (by rw [← hx]; exact lt_irrefl 0), if_pos hx.symm]
    constructor <;> linarith
  · have hxR : ((d.2 : ℚ) : ℝ) < 0 := by exact_mod_cast hx
    rw [if_neg (not_lt.mpr hx.le), if_neg hx.ne]
    have h1 := Real.neg_pi_div_two_lt_arctan (((d.1 : ℚ) : ℝ) / ((d.2 : ℚ) : ℝ))
    have h2 := arctanNeg (div_neg_of_pos_of_neg hyR hxR)
    constructor <;> linarith

/-- Class-3 displacements (`dy < 0`): the normalized angle is the
arctangent expression shifted into (π, 2π). -/
theorem normAngle_class3_eq {d : ℚ × ℚ} (hy : d.1 < 0) :
    normAngle d =
      if 0 < d.2 then
        Real.arctan (((d.1 : ℚ) : ℝ) / ((d.2 : ℚ) : ℝ)) + 2 * Real.pi
      else if d.2 = 0 then 3 * Real.pi / 2
      else Real.arctan (((d.1 : ℚ) : ℝ) / ((d.2 : ℚ) : ℝ)) + Real.pi := by
  have hyR : ((d.1 : ℚ) : ℝ) < 0 := by exact_mod_cast hy
  rcases lt_trichotomy (0 : ℚ) d.2 with hx | hx | hx
  · have hxR : (0 : ℝ) < ((d.2 : ℚ) : ℝ) := by exact_mod_cast hx
    rw [if_pos hx]
    have hval : atan2 ((d.1 : ℚ) : ℝ) ((d.2 : ℚ) : ℝ) =
        Real.arctan (((d.1 : ℚ) : ℝ) / ((d.2 : ℚ) : ℝ)) := by
      unfold atan2
      rw [if_pos hxR]
    unfold normAngle
    rw [hval, if_pos (arctanNeg (div_neg_of_neg_of_pos hyR hxR))]
  · rw [if_neg (by rw [← hx]; exact lt_irrefl 0), if_pos hx.symm]
    have hxR : ((d.2 : ℚ) : ℝ) = 0 := by exact_mod_cast hx.symm
    have hval : atan2 ((d.1 : ℚ) : ℝ) ((d.2 : ℚ) : ℝ) = -(Real.pi / 2) := by
      unfold atan2
      rw [hxR, if_neg (lt_irrefl 0), if_neg (lt_irrefl 0),
        if_neg (not_lt.mpr hyR.le), if_pos hyR]
    unfold normAngle
    rw [hval, if_pos (by have := Real.pi_pos; linarith)]
    ring
  · have hxR : ((d.2 : ℚ) : ℝ) < 0 := by exact_mod_cast hx
    rw [if_neg (not_lt.mpr hx.le), if_neg hx.ne]
    have hval : atan2 ((d.1 : ℚ) : ℝ) ((d.2 : ℚ) : ℝ) =
        Real.arctan (((d.1 : ℚ) : ℝ) / ((d.2 : ℚ) : ℝ)) - Real.pi := by
      unfold atan2
      rw [if_neg (not_lt.mpr hxR.le), if_pos hxR, if_neg (not_le.mpr hyR)]
    have h1 := Real.arctan_lt_pi_div_two (((d.1 : ℚ) : ℝ) / ((d.2 : ℚ) : ℝ))
    have hpi := Real.pi_pos
    unfold normAngle
    rw [hval, if_pos (by linarith)]
    ring

/-- Class-3 displacements have normalized angle strictly between π and
2π. -/
theorem normAngle_class3_bounds {d : ℚ × ℚ} (hy : d.1 < 0) :
    Real.pi < normAngle d ∧ normAngle d < 2 * Real.pi := by
  have hyR : ((d.1 : ℚ) : ℝ) < 0 := by exact_mod_cast hy
  have hpi := Real.pi_pos
  rw [normAngle_class3_eq hy]
  rcases lt_trichotomy (0 : ℚ) d.2 with hx | hx | hx
  · have hxR : (0 : ℝ) < ((d.2 : ℚ) : ℝ) := by exact_mod_cast hx
    rw [if_pos hx]
    have h1 := Real.neg_pi_div_two_lt_arctan (((d.1 : ℚ) : ℝ) / ((d.2 : ℚ) : ℝ))
    have h2 := arctanNeg (div_neg_of_neg_of_pos hyR hxR)
    constructor <;> linarith
  · rw [if_neg (by rw [← hx]; exact lt_irrefl 0), if_pos hx.symm]
    constructor <;> linarith
  · have hxR : ((d.2 : ℚ) : ℝ) < 0 := by exact_mod_cast hx
    rw [if_neg (not_lt.mpr hx.le), if_neg hx.ne]
    have h1 := Real.arctan_lt_pi_div_two (((d.1 : ℚ) : ℝ) / ((d.2 : ℚ) : ℝ))
    have h2 := arctanPos (div_pos_of_neg_of_neg hyR hxR)
    constructor <;> linarith

/-- Every normalized angle is non-negative. -/
theorem normAngle_nonneg (d : ℚ × ℚ) : 0 ≤ normAngle d := by
  rcases lt_trichotomy (0 : ℚ) d.1 with h | h | h
  · exact (normAngle_class1_bounds h).1.le
  · by_cases hx : d.2 < 0
    · rw [normAngle_class2_eq h.symm hx]
      exact Real.pi_pos.le
    · rw [normAngle_class0_eq h.symm hx]
  · exact (Real.pi_pos.trans (normAngle_class3_bounds h).1).le

/-- Class-0 displacements have `dy = 0` and `dx ≥ 0`. -/
theorem class0_props {d : ℚ × ℚ} (h : angClass d = 0) :
    d.1 = 0 ∧ ¬ d.2 < 0 := by
  unfold angClass at h
  split_ifs at h with h1 h2 h3
  all_goals first
    | (exact ⟨‹d.1 = 0›, ‹¬ d.2 < 0›⟩)
    | (exact absurd h (by decide))

/-- Class-2 displacements have `dy = 0` and `dx < 0`. -/
theorem class2_props {d : ℚ × ℚ} (h : angClass d = 2) :
    d.1 = 0 ∧ d.2 < 0 := by
  unfold angClass at h
  split_ifs at h with h1 h2 h3
  all_goals first
    | (exact ⟨‹d.1 = 0›, ‹d.2 < 0›⟩)
    | (exact absurd h (by decide))

/-- Division inequality from cross-multiplication, positive
denominators. -/
theorem divLeDivCrossPos {p q r s : ℝ} (hq : 0 < q) (hs : 0 < s)
    (h : p * s ≤ r * q) : p / q ≤ r / s :=
  (div_le_div_iff hq hs).mpr h

/-- Division inequality from cross-multiplication, negative
denominators. -/
theorem divLeDivCrossNeg {p q r s : ℝ} (hq : q < 0) (hs : s < 0)
    (h : p * s ≤ r * q) : p / q ≤ r / s := by
  rw [← neg_div_neg_eq p q, ← neg_div_neg_eq r s]
  exact (div_le_div_iff (neg_pos.mpr hq) (neg_pos.mpr hs)).mpr (by nlinarith)

/-- Within class 1 (`dy > 0`), the cross-product comparison implies the
normalized-angle comparison. -/
theorem normAngle_le_class1 {a b : ℚ × ℚ} (ha : 0 < a.1) (hb : 0 < b.1)
    (hx : b.2 * a.1 ≤ a.2 * b.1) : normAngle a ≤ normAngle b := by
  have haR : (0 : ℝ) < ((a.1 : ℚ) : ℝ) := by exact_mod_cast ha
  have hbR : (0 : ℝ) < ((b.1 : ℚ) : ℝ) := by exact_mod_cast hb
  have hxQ : a.1 * b.2 ≤ b.1 * a.2 := by
    rw [mul_comm a.1 b.2, mul_comm b.1 a.2]
    exact hx
  have hxR : ((a.1 : ℚ) : ℝ) * ((b.2 : ℚ) : ℝ) ≤
      ((b.1 : ℚ) : ℝ) * ((a.2 : ℚ) : ℝ) := by exact_mod_cast hxQ
  have hpi := Real.pi_pos
  have harcA := Real.arctan_lt_pi_div_two (((a.1 : ℚ) : ℝ) / ((a.2 : ℚ) : ℝ))
  have harcA2 := Real.neg_pi_div_two_lt_arctan (((a.1 : ℚ) : ℝ) / ((a.2 : ℚ) : ℝ))
  have harcB := Real.arctan_lt_pi_div_two (((b.1 : ℚ) : ℝ) / ((b.2 : ℚ) : ℝ))
  have harcB2 := Real.neg_pi_div_two_lt_arctan (((b.1 : ℚ) : ℝ) / ((b.2 : ℚ) : ℝ))
  rw [normAngle_class1_eq ha, normAngle_class1_eq hb]
  rcases lt_trichotomy (0 : ℚ) a.2 with ha2 | ha2 | ha2 <;>
    rcases lt_trichotomy (0 : ℚ) b.2 with hb2 | hb2 | hb2
  · have ha2R : (0 : ℝ) < ((a.2 : ℚ) : ℝ) := by exact_mod_cast ha2
    have hb2R : (0 : ℝ) < ((b.2 : ℚ) : ℝ) := by exact_mod_cast hb2
    rw [if_pos ha2, if_pos hb2]
    exact Real.arctan_strictMono.monotone (divLeDivCrossPos ha2R hb2R hxR)
  · rw [if_pos ha2, if_neg (by rw [← hb2]; exact lt_irrefl 0),
      if_pos hb2.symm]
    exact harcA.le.trans (by linarith)
  · rw [if_pos ha2, if_neg (not_lt.mpr hb2.le), if_neg hb2.ne]
    linarith
  · exfalso
    rw [← ha2] at hx
    have := mul_pos hb2 ha
    simp at hx
    nlinarith
  · rw [if_neg (by rw [← ha2]; exact lt_irrefl 0), if_pos ha2.symm,
      if_neg (by rw [← hb2]; exact lt_irrefl 0), if_pos hb2.symm]
  · rw [if_neg (by rw [← ha2]; exact lt_irrefl 0), if_pos ha2.symm,
      if_neg (not_lt.mpr hb2.le), if_neg hb2.ne]
    linarith
  · exfalso
    have h1 : 0 < b.2 * a.1 := mul_pos hb2 ha
    have h2 : a.2 * b.1 < 0 := mul_neg_of_neg_of_pos ha2 hb
    linarith
  · exfalso
    rw [← hb2] at hx
    have h2 : a.2 * b.1 < 0 := mul_neg_of_neg_of_pos ha2 hb
    simp at hx
    linarith
  · have ha2R : ((a.2 : ℚ) : ℝ) < 0 := by exact_mod_cast ha2
    have hb2R : ((b.2 : ℚ) : ℝ) < 0 := by exact_mod_cast hb2
    rw [if_neg (not_lt.mpr ha2.le), if_neg ha2.ne,
      if_neg (not_lt.mpr hb2.le), if_neg hb2.ne]
    exact add_le_add_right
      (Real.arctan_strictMono.monotone (divLeDivCrossNeg ha2R hb2R hxR)) _

/-- Within class 3 (`dy < 0`), the cross-product comparison implies the
normalized-angle comparison. -/
theorem normAngle_le_class3 {a b : ℚ × ℚ} (ha : a.1 < 0) (hb : b.1 < 0)
    (hx : b.2 * a.1 ≤ a.2 * b.1) : normAngle a ≤ normAngle b := by
  have haR : ((a.1 : ℚ) : ℝ) < 0 := by exact_mod_cast ha
  have hbR : ((b.1 : ℚ) : ℝ) < 0 := by exact_mod_cast hb
  have hxQ : a.1 * b.2 ≤ b.1 * a.2 := by
    rw [mul_comm a.1 b.2, mul_comm b.1 a.2]
    exact hx
  have hxR : ((a.1 : ℚ) : ℝ) * ((b.2 : ℚ) : ℝ) ≤
      ((b.1 : ℚ) : ℝ) * ((a.2 : ℚ) : ℝ) := by exact_mod_cast hxQ
  have hpi := Real.pi_pos
  have harcA := Real.arctan_lt_pi_div_two (((a.1 : ℚ) : ℝ) / ((a.2 : ℚ) : ℝ))
  have harcA2 := Real.neg_pi_div_two_lt_arctan (((a.1 : ℚ) : ℝ) / ((a.2 : ℚ) : ℝ))
  have harcB := Real.arctan_lt_pi_div_two (((b.1 : ℚ) : ℝ) / ((b.2 : ℚ) : ℝ))
  have harcB2 := Real.neg_pi_div_two_lt_arctan (((b.1 : ℚ) : ℝ) / ((b.2 : ℚ) : ℝ))
  rw [normAngle_class3_eq ha, normAngle_class3_eq hb]
  rcases lt_trichotomy (0 : ℚ) a.2 with ha2 | ha2 | ha2 <;>
    rcases lt_trichotomy (0 : ℚ) b.2 with hb2 | hb2 | hb2
  · have ha2R : (0 : ℝ) < ((a.2 : ℚ) : ℝ) := by exact_mod_cast ha2
    have hb2R : (0 : ℝ) < ((b.2 : ℚ) : ℝ) := by exact_mod_cast hb2
    rw [if_pos ha2, if_pos hb2]
    exact add_le_add_right
      (Real.arctan_strictMono.monotone (divLeDivCrossPos ha2R hb2R hxR)) _
  · exfalso
    rw [← hb2] at hx
    have h2 : a.2 * b.1 < 0 := mul_neg_of_pos_of_neg ha2 hb
    simp at hx
    linarith
  · exfalso
    have h1 : 0 < b.2 * a.1 := mul_pos_of_neg_of_neg hb2 ha
    have h2 : a.2 * b.1 < 0 := mul_neg_of_pos_of_neg ha2 hb
    linarith
  · rw [if_neg (by rw [← ha2]; exact lt_irrefl 0), if_pos ha2.symm,
      if_pos hb2]
    linarith
  · rw [if_neg (by rw [← ha2]; exact lt_irrefl 0), if_pos ha2.symm,
      if_neg (by rw [← hb2]; exact lt_irrefl 0), if_pos hb2.symm]
  · exfalso
    rw [← ha2] at hx
    have h1 : 0 < b.2 * a.1 := mul_pos_of_neg_of_neg hb2 ha
    simp at hx
    linarith
  · rw [if_neg (not_lt.mpr ha2.le), if_neg ha2.ne, if_pos hb2]
    linarith
  · rw [if_neg (not_lt.mpr ha2.le), if_neg ha2.ne,
      if_neg (by rw [← hb2]; exact lt_irrefl 0), if_pos hb2.symm]
    linarith
  · have ha2R : ((a.2 : ℚ) : ℝ) < 0 := by exact_mod_cast ha2
    have hb2R : ((b.2 : ℚ) : ℝ) < 0 := by exact_mod_cast hb2
    rw [if_neg (not_lt.mpr ha2.le), if_neg ha2.ne,
      if_neg (not_lt.mpr hb2.le), if_neg hb2.ne]
    exact add_le_add_right
      (Real.arctan_strictMono.monotone (divLeDivCrossNeg ha2R hb2R hxR)) _

/-- The decidable comparison `angLe` is sound for the real normalized
arctan2 angle: whenever `angLe a b` holds, the normalized angle of `a`
is at most that of `b`. -/
theorem normAngle_le_of_angLe {a b : ℚ × ℚ} (h : angLe a b = true) :
    normAngle a ≤ normAngle b := by
  unfold angLe at h
  by_cases e : angClass a = angClass b
  · rw [if_pos e] at h
    by_cases h13 : angClass a = 1 ∨ angClass a = 3
    · rw [if_pos h13] at h
      have hx := of_decide_eq_true h
      rcases h13 with hc | hc
      · exact normAngle_le_class1 (pos_of_angClass_one hc)
          (pos_of_angClass_one (e.symm.trans hc)) hx
      · exact normAngle_le_class3 (neg_of_angClass_three hc)
          (neg_of_angClass_three (e.symm.trans hc)) hx
    · rcases angClass_cases a with ⟨hc, _⟩ | ⟨hc, _⟩ | ⟨hc, _⟩
      · exact absurd (Or.inl hc) h13
      · exact absurd (Or.inr hc) h13
      · rcases hc with hc | hc
        · have pa := class0_props hc
          rw [normAngle_class0_eq pa.1 pa.2]
          exact normAngle_nonneg b
        · have pa := class2_props hc
          have pb := class2_props (e.symm.trans hc)
          rw [normAngle_class2_eq pa.1 pa.2, normAngle_class2_eq pb.1 pb.2]
  · rw [if_neg e] at h
    have hlt := of_decide_eq_true h
    rcases angClass_cases a with ⟨hca, hya⟩ | ⟨hca, hya⟩ | ⟨hca, hya⟩
    · rcases angClass_cases b with ⟨hcb, hyb⟩ | ⟨hcb, hyb⟩ | ⟨hcb, hyb⟩
      · exact absurd (hca.trans hcb.symm) e
      · exact ((normAngle_class1_bounds hya).2.trans
          (normAngle_class3_bounds hyb).1).le
      · rcases hcb with hcb | hcb
        · rw [hca, hcb] at hlt
          exact absurd hlt (by decide)
        · have pb := class2_props hcb
          rw [normAngle_class2_eq pb.1 pb.2]
          exact (normAngle_class1_bounds hya).2.le
    · rcases angClass_cases b with ⟨hcb, hyb⟩ | ⟨hcb, hyb⟩ | ⟨hcb, hyb⟩
      · rw [hca, hcb] at hlt
        exact absurd hlt (by decide)
      · exact absurd (hca.trans hcb.symm) e
      · rcases hcb with hcb | hcb <;> rw [hca, hcb] at hlt <;>
          exact absurd hlt (by decide)
    · rcases hca with hca | hca
      · have pa := class0_props hca
        rw [normAngle_class0_eq pa.1 pa.2]
        exact normAngle_nonneg b
      · have pa := class2_props hca
        rw [normAngle_class2_eq pa.1 pa.2]
        rcases angClass_cases b with ⟨hcb, hyb⟩ | ⟨hcb, hyb⟩ | ⟨hcb, hyb⟩
        · rw [hca, hcb] at hlt
          exact absurd hlt (by decide)
        · exact (normAngle_class3_bounds hyb).1.le
        · rcases hcb with hcb | hcb <;> rw [hca, hcb] at hlt <;>
            exact absurd hlt (by decide)

/-- The ordering the claim describes: ascending Euclidean radial
distance from the center, ties broken by ascending polar angle
normalized to [0, 2π), measured counter-clockwise from the positive
column axis. -/
noncomputable def claimSpiralLe (center : ℚ × ℚ) (p q : ℚ × ℚ) : Prop :=
  Real.sqrt ((sqDist center p : ℚ) : ℝ) < Real.sqrt ((sqDist center q : ℚ) : ℝ) ∨
    (Real.sqrt ((sqDist center p : ℚ) : ℝ) = Real.sqrt ((sqDist center q : ℚ) : ℝ) ∧
      normAngle (disp center p) ≤ normAngle (disp center q))

/-- Soundness of the embedded comparator for the claim's ordering. -/
theorem claimSpiralLe_of_spiralLe {center p q : ℚ × ℚ}
    (h : spiralLe center p q) : claimSpiralLe center p q := by
  have h0 : (0 : ℚ) ≤ sqDist center p := by
    unfold sqDist
    positivity
  rcases h with h | ⟨he, ha⟩
  · exact Or.inl (Real.sqrt_lt_sqrt (by exact_mod_cast h0) (by exact_mod_cast h))
  · exact Or.inr ⟨by rw [he], normAngle_le_of_angLe ha⟩

/-- C6: whenever `Cube._spiral` returns, its output is ordered by
ascending Euclidean radial distance from the spiral center, ties broken
by ascending normalized polar angle measured counter-clockwise from the
positive column axis; when no center is given the center is half the
maximum column index and half the maximum row index of the traversed
coordinates. -/
theorem c6_spiral_sorted_by_radius_then_angle (xy : List (ℚ × ℚ))
    (c : Option (ℚ × ℚ)) (out : List (ℚ × ℚ))
    (h : spiral xy c = Except.ok out) :
    List.Sorted (claimSpiralLe (c.getD
      (listMax (xy.map Prod.snd) / 2, listMax (xy.map Prod.fst) / 2))) out := by
  have hsorted : ∀ (l : List (ℚ × ℚ)) (ctr : ℚ × ℚ),
      List.Sorted (claimSpiralLe ctr) (List.insertionSort (spiralLe ctr) l) :=
    fun l ctr => (List.sorted_insertionSort (spiralLe ctr) l).imp
      (fun hpq => claimSpiralLe_of_spiralLe hpq)
  cases c with
  | none =>
    cases xy with
    | nil => exact absurd h (by rw [spiral]; exact fun hh => Except.noConfusion hh)
    | cons a l =>
      rw [spiral] at h
      · rw [← Except.ok.inj h]
        exact hsorted _ _
      · intro _ hh
        exact List.noConfusion hh
  | some ctr =>
    cases xy with
    | nil =>
      rw [spiral] at h
      · rw [← Except.ok.inj h]
        exact hsorted _ _
      · intro hh _
        exact Option.noConfusion hh
    | cons a l =>
      rw [spiral] at h
      · rw [← Except.ok.inj h]
        exact hsorted _ _
      · intro _ hh
        exact List.noConfusion hh

/-- Witness for C6 at a concrete three-coordinate list with the default
center (1/2, 1): all three coordinates are at equal radius √(5)/2, and
the output visits them in order of ascending normalized angle (class 1,
then the two class-3 displacements ordered by cross product). -/
theorem c6_spiral_sorted_by_radius_then_angle_witness :
    List.Sorted (claimSpiralLe ((1 : ℚ)/2, (1 : ℚ)))
      [((2 : ℚ), (0 : ℚ)), (0, 0), (0, 1)] :=
  by with_unfolding_all
    exact c6_spiral_sorted_by_radius_then_angle [(0, 0), (0, 1), (2, 0)] none
      [(2, 0), (0, 0), (0, 1)] (by with_unfolding_all rfl)

end IfsCube
